import Mathlib

/-!
Verification of the Storage Transfer Engine (STE) of azure-storage-azcopy
against its natural-language specification.

The Go sources are shallowly embedded: pure computations become Lean
functions, the stateful chunk closures become explicit state-passing
functions over a `TransferState` record, remote I/O outcomes (put_block,
put_block_list, put_blob) are supplied by explicit boolean oracles, and
random UUID generation is supplied by an explicit byte-list oracle.
Machine integers are modelled with `Nat` (all quantities involved are
non-negative and no overflow-relevant arithmetic occurs on the verified
paths).
-/

/-! ## Transfer status codes (common, current generation)

From the `common` package: `TransferInProgress = 0`, `TransferComplete = 1`,
`TransferFailed = 2`, `TransferAny = 254` (`TransferStatus uint32`). -/

def TransferInProgress : Nat := 0

def TransferComplete : Nat := 1

def TransferFailed : Nat := 2

def TransferAny : Nat := 254

/-! ## Base64 standard encoding (Go `encoding/base64` StdEncoding)

The chunk closures compute
`base64.StdEncoding.EncodeToString([]byte(blockId))`.  We model the
standard RFC 4648 base64 alphabet and '='-padded encoding over byte lists
(`List Nat`, each entry < 256). -/

def base64Alphabet : List Char :=
  "ABCDEFGHIJKLMNOPQRSTUVWXYZabcdefghijklmnopqrstuvwxyz0123456789+/".toList

def b64char (n : Nat) : Char := base64Alphabet.getD (n % 64) 'A'

def base64Encode : List Nat → List Char
  | b0 :: b1 :: b2 :: rest =>
      b64char (b0 / 4) :: b64char (b0 % 4 * 16 + b1 / 16) ::
      b64char (b1 % 16 * 4 + b2 / 64) :: b64char (b2 % 64) :: base64Encode rest
  | [b0, b1] => [b64char (b0 / 4), b64char (b0 % 4 * 16 + b1 / 16), b64char (b1 % 16 * 4), '=']
  | [b0] => [b64char (b0 / 4), b64char (b0 % 4 * 16), '=', '=']
  | [] => []

theorem base64Encode_length (l : List Nat) :
    (base64Encode l).length = 4 * ((l.length + 2) / 3) := by
  match l with
  | b0 :: b1 :: b2 :: rest =>
      have ih := base64Encode_length rest
      simp [base64Encode, ih]
      omega
  | [b0, b1] => simp [base64Encode]
  | [b0] => simp [base64Encode]
  | [] => rfl

/-! ## UUID generation and its string form

`newUUID` (handlers package) draws 16 random bytes, sets the RFC 4122
variant and version bits (`uuid[8] = uuid[8]&^0xc0 | 0x80`,
`uuid[6] = uuid[6]&^0xf0 | 0x40`) and renders the bytes as a hexadecimal
string via `fmt.Sprintf("%x%x%x%x%x", ...)` (two lowercase hex digits per
byte, 32 characters in total).  The random bytes are an explicit input. -/

def hexDigit (n : Nat) : Char := "0123456789abcdef".toList.getD (n % 16) '0'

def uuidStringChars (uuid : List Nat) : List Char :=
  uuid.flatMap (fun b => [hexDigit (b / 16), hexDigit (b % 16)])

def newUUIDBytes (rand : List Nat) : List Nat :=
  let u1 := rand.set 8 (rand.getD 8 0 % 64 + 128)
  u1.set 6 (u1.getD 6 0 % 16 + 64)

/-- The string form of a freshly generated UUID (`common.NewUUID().String()`),
as a character list. -/
def newUUIDString (rand : List Nat) : List Char := uuidStringChars (newUUIDBytes rand)

/-- The encoded block id a chunk closure computes:
`base64.StdEncoding.EncodeToString([]byte(common.NewUUID().String()))`. -/
def encodedBlockIdOf (rand : List Nat) : List Char :=
  base64Encode ((newUUIDString rand).map Char.toNat)

/-! ### Injectivity of the block-id encoding -/

theorem base64Alphabet_nodup : base64Alphabet.Nodup := by decide

theorem base64Alphabet_length : base64Alphabet.length = 64 := by decide

theorem b64char_inj {a b : Nat} (ha : a < 64) (hb : b < 64)
    (h : b64char a = b64char b) : a = b := by
  unfold b64char at h
  rw [Nat.mod_eq_of_lt ha, Nat.mod_eq_of_lt hb] at h
  rw [List.getD_eq_getElem _ _ (by rw [base64Alphabet_length]; omega),
      List.getD_eq_getElem _ _ (by rw [base64Alphabet_length]; omega)] at h
  exact (List.Nodup.getElem_inj_iff base64Alphabet_nodup).mp h

theorem b64char_ne_pad (n : Nat) : b64char n ≠ '=' := by
  have hlt : n % 64 < 64 := Nat.mod_lt _ (by omega)
  have haux : ∀ i : Fin 64, base64Alphabet.getD i.val 'A' ≠ '=' := by decide
  exact haux ⟨n % 64, hlt⟩

theorem base64Encode_inj (l1 l2 : List Nat)
    (h1 : ∀ b ∈ l1, b < 256) (h2 : ∀ b ∈ l2, b < 256)
    (h : base64Encode l1 = base64Encode l2) : l1 = l2 := by
  match l1, l2 with
  | [], [] => rfl
  | [], [b0'] => simp [base64Encode] at h
  | [], [b0', b1'] => simp [base64Encode] at h
  | [], b0' :: b1' :: b2' :: rest2 => simp [base64Encode] at h
  | [b0], [] => simp [base64Encode] at h
  | [b0, b1], [] => simp [base64Encode] at h
  | b0 :: b1 :: b2 :: rest1, [] => simp [base64Encode] at h
  | [b0], [b0'] =>
      simp [base64Encode] at h
      obtain ⟨e1, e2⟩ := h
      have hb0 : b0 < 256 := h1 b0 (by simp)
      have hb0' : b0' < 256 := h2 b0' (by simp)
      have d1 := b64char_inj (by omega) (by omega) e1
      have d2 := b64char_inj (by omega) (by omega) e2
      have : b0 = b0' := by omega
      rw [this]
  | [b0], [b0', b1'] =>
      simp [base64Encode] at h
      exact absurd h.2.2.symm (b64char_ne_pad _)
  | [b0], b0' :: b1' :: b2' :: rest2 =>
      simp [base64Encode] at h
      exact absurd h.2.2.1.symm (b64char_ne_pad _)
  | [b0, b1], [b0'] =>
      simp [base64Encode] at h
      exact absurd h.2.2 (b64char_ne_pad _)
  | [b0, b1], [b0', b1'] =>
      simp [base64Encode] at h
      obtain ⟨e1, e2, e3⟩ := h
      have hb0 : b0 < 256 := h1 b0 (by simp)
      have hb1 : b1 < 256 := h1 b1 (by simp)
      have hb0' : b0' < 256 := h2 b0' (by simp)
      have hb1' : b1' < 256 := h2 b1' (by simp)
      have d1 := b64char_inj (by omega) (by omega) e1
      have d2 := b64char_inj (by omega) (by omega) e2
      have d3 := b64char_inj (by omega) (by omega) e3
      have hb : b0 = b0' ∧ b1 = b1' := by omega
      rw [hb.1, hb.2]
  | [b0, b1], b0' :: b1' :: b2' :: rest2 =>
      simp [base64Encode] at h
      exact absurd h.2.2.2.1.symm (b64char_ne_pad _)
  | b0 :: b1 :: b2 :: rest1, [b0'] =>
      simp [base64Encode] at h
      exact absurd h.2.2.1 (b64char_ne_pad _)
  | b0 :: b1 :: b2 :: rest1, [b0', b1'] =>
      simp [base64Encode] at h
      exact absurd h.2.2.2.1 (b64char_ne_pad _)
  | b0 :: b1 :: b2 :: rest1, b0' :: b1' :: b2' :: rest2 =>
      simp [base64Encode] at h
      obtain ⟨e1, e2, e3, e4, etail⟩ := h
      have hb0 : b0 < 256 := h1 b0 (by simp)
      have hb1 : b1 < 256 := h1 b1 (by simp)
      have hb2 : b2 < 256 := h1 b2 (by simp)
      have hb0' : b0' < 256 := h2 b0' (by simp)
      have hb1' : b1' < 256 := h2 b1' (by simp)
      have hb2' : b2' < 256 := h2 b2' (by simp)
      have d1 := b64char_inj (by omega) (by omega) e1
      have d2 := b64char_inj (by omega) (by omega) e2
      have d3 := b64char_inj (by omega) (by omega) e3
      have d4 := b64char_inj (by omega) (by omega) e4
      have htl := base64Encode_inj rest1 rest2
        (fun b hb => h1 b (by simp [hb])) (fun b hb => h2 b (by simp [hb])) etail
      have hb : b0 = b0' ∧ b1 = b1' ∧ b2 = b2' := by omega
      rw [hb.1, hb.2.1, hb.2.2, htl]

theorem hexDigit_toNat_lt (n : Nat) : (hexDigit n).toNat < 256 := by
  have hlt : n % 16 < 16 := Nat.mod_lt _ (by omega)
  have haux : ∀ i : Fin 16, ("0123456789abcdef".toList.getD i.val '0').toNat < 256 := by decide
  exact haux ⟨n % 16, hlt⟩

theorem hexDigit_toNat_inj {a b : Nat} (ha : a < 16) (hb : b < 16)
    (h : (hexDigit a).toNat = (hexDigit b).toNat) : a = b := by
  have haux : ∀ i j : Fin 16,
      ("0123456789abcdef".toList.getD i.val '0').toNat =
      ("0123456789abcdef".toList.getD j.val '0').toNat → i = j := by decide
  have := haux ⟨a, ha⟩ ⟨b, hb⟩ (by
    unfold hexDigit at h
    rwa [Nat.mod_eq_of_lt ha, Nat.mod_eq_of_lt hb] at h)
  exact congrArg Fin.val this

theorem uuidStringChars_toNat_inj (l1 l2 : List Nat)
    (h1 : ∀ b ∈ l1, b < 256) (h2 : ∀ b ∈ l2, b < 256)
    (h : (uuidStringChars l1).map Char.toNat = (uuidStringChars l2).map Char.toNat) :
    l1 = l2 := by
  match l1, l2 with
  | [], [] => rfl
  | [], b' :: rest2 => simp [uuidStringChars] at h
  | b :: rest1, [] => simp [uuidStringChars] at h
  | b :: rest1, b' :: rest2 =>
      simp [uuidStringChars] at h
      obtain ⟨e1, e2, etail⟩ := h
      have hb : b < 256 := h1 b (by simp)
      have hb' : b' < 256 := h2 b' (by simp)
      have d1 := hexDigit_toNat_inj (by omega) (by omega) e1
      have d2 := hexDigit_toNat_inj (Nat.mod_lt _ (by omega)) (Nat.mod_lt _ (by omega)) e2
      have htl := uuidStringChars_toNat_inj rest1 rest2
        (fun x hx => h1 x (by simp [hx])) (fun x hx => h2 x (by simp [hx]))
        (by simpa [uuidStringChars] using etail)
      have hbb : b = b' := by omega
      rw [hbb, htl]

theorem uuidStringChars_toNat_lt (l : List Nat) :
    ∀ c ∈ (uuidStringChars l).map Char.toNat, c < 256 := by
  intro c hc
  rw [List.mem_map] at hc
  obtain ⟨ch, hmem, rfl⟩ := hc
  rw [uuidStringChars, List.mem_flatMap] at hmem
  obtain ⟨b, _, hd⟩ := hmem
  simp at hd
  rcases hd with hd | hd <;> rw [hd] <;> exact hexDigit_toNat_lt _

/-- Distinct (post variant/version-bit masking) UUIDs yield distinct
encoded block ids. -/
theorem encodedBlockIdOf_inj (r1 r2 : List Nat)
    (h1 : ∀ b ∈ newUUIDBytes r1, b < 256) (h2 : ∀ b ∈ newUUIDBytes r2, b < 256)
    (hne : newUUIDBytes r1 ≠ newUUIDBytes r2) :
    encodedBlockIdOf r1 ≠ encodedBlockIdOf r2 := by
  intro h
  apply hne
  have hb := base64Encode_inj _ _ (uuidStringChars_toNat_lt _) (uuidStringChars_toNat_lt _) h
  exact uuidStringChars_toNat_inj _ _ h1 h2 hb

/-- The masking in `newUUID` keeps every byte below 256 when the random
input bytes are below 256. -/
theorem newUUIDBytes_lt (rand : List Nat) (h : ∀ b ∈ rand, b < 256) :
    ∀ b ∈ newUUIDBytes rand, b < 256 := by
  intro b hb
  unfold newUUIDBytes at hb
  rcases List.mem_or_eq_of_mem_set hb with hb1 | hb1
  · rcases List.mem_or_eq_of_mem_set hb1 with hb2 | hb2
    · exact h b hb2
    · have : rand.getD 8 0 % 64 < 64 := Nat.mod_lt _ (by omega)
      omega
  · have : (rand.set 8 (rand.getD 8 0 % 64 + 128)).getD 6 0 % 16 < 16 :=
      Nat.mod_lt _ (by omega)
    omega

/-! ## The current local-to-block-blob uploader (`ste.localToBlockBlob`)

`prologue` builds the pipeline, memory-maps the source, and either takes the
single-`PutBlob` fast path (`blobSize <= chunkSize`) or schedules one
`ChunkMsg` per chunk.  Each chunk closure produced by `generateUploadFunc`
mutates shared per-transfer state; we model that state explicitly and model
each closure invocation as an atomic state transition.  `t.ChunksDone()` is
not part of the provided sources; following the specification
("increment `chunks_done`; if it equals `num_chunks` ...") it is modelled
as an atomic increment returning the new counter value. -/

structure TransferState where
  /-- `t.TransferContext.Err() != nil`: the transfer's cancel token. -/
  cancelled : Bool
  /-- the per-transfer chunks-done counter read/written by `t.ChunksDone()`. -/
  chunksDone : Nat
  /-- the most recently written transfer status (`t.TransferStatus(...)`). -/
  status : Nat
  /-- how many times `t.TransferDone()` has been called. -/
  doneCount : Nat
  /-- how many `PutBlock` calls were issued. -/
  putBlockCalls : Nat
  /-- how many `PutBlockList` calls were issued. -/
  putBlockListCalls : Nat
  /-- the block-id slice passed to the (last) `PutBlockList` call, if any. -/
  putBlockListArg : Option (List (Option (List Char)))
  /-- the shared `blocksIds` slice; slot `i` belongs to chunk `i`. -/
  blockIds : List (Option (List Char))
  /-- `realTimeThroughputCounter` bytes. -/
  throughputBytes : Nat
  /-- how many times `memoryMappedFile.Unmap()` was called. -/
  unmapCount : Nat
  deriving DecidableEq, Repr

/-- The in-memory state of a transfer when its chunks start executing. -/
def initialTransferState (numChunks : Nat) : TransferState :=
  { cancelled := false
    chunksDone := 0
    status := TransferInProgress
    doneCount := 0
    putBlockCalls := 0
    putBlockListCalls := 0
    putBlockListArg := none
    blockIds := List.replicate numChunks none
    throughputBytes := 0
    unmapCount := 0 }

/-- One scheduled invocation of a chunk closure: the chunk index it was
created with, the random bytes `common.NewUUID()` draws during the
invocation, and the outcomes of the remote `PutBlock` / `PutBlockList`
calls (the retry pipeline is the blob client's concern). -/
structure ChunkInvocation where
  chunkId : Nat
  uuid : List Nat
  putBlockOk : Bool
  putBlockListOk : Bool

/-- One invocation of the closure returned by
`localToBlockBlob.generateUploadFunc` (current generation), as an atomic
transition on the shared transfer state.  Mirrors the source line by line:
cancelled path, `PutBlock` failure path, success path with epilogue. -/
def generateUploadFuncStep (totalNumOfChunks : Nat) (chunkSize : Nat)
    (inv : ChunkInvocation) (s : TransferState) : TransferState :=
  if s.cancelled then
    -- "is cancelled. Hence not picking up chunkId"
    let s1 := { s with chunksDone := s.chunksDone + 1 }
    if s1.chunksDone = totalNumOfChunks then
      { s1 with doneCount := s1.doneCount + 1 }
    else s1
  else
    -- step 1 and 2: generate the block id and save it into slot chunkId
    let encodedBlockId := encodedBlockIdOf inv.uuid
    let s1 := { s with blockIds := s.blockIds.set inv.chunkId (some encodedBlockId) }
    -- step 3: perform put block
    let s2 := { s1 with putBlockCalls := s1.putBlockCalls + 1 }
    if !inv.putBlockOk then
      -- cancel entire transfer because this chunk has failed
      let s3 := { s2 with cancelled := true, status := TransferFailed }
      let s4 := { s3 with chunksDone := s3.chunksDone + 1 }
      if s4.chunksDone = totalNumOfChunks then
        { s4 with doneCount := s4.doneCount + 1, unmapCount := s4.unmapCount + 1 }
      else s4
    else
      let s3 := { s2 with throughputBytes := s2.throughputBytes + chunkSize }
      -- step 4: check if this is the last chunk
      let s4 := { s3 with chunksDone := s3.chunksDone + 1 }
      if s4.chunksDone = totalNumOfChunks then
        -- "If the transfer gets cancelled before the putblock list"
        if s4.cancelled then { s4 with doneCount := s4.doneCount + 1 }
        else
          -- step 5: this is the last block, perform EPILOGUE
          let s5 := { s4 with putBlockListCalls := s4.putBlockListCalls + 1,
                              putBlockListArg := some s4.blockIds }
          if !inv.putBlockListOk then
            { s5 with status := TransferFailed, doneCount := s5.doneCount + 1 }
          else
            { s5 with status := TransferComplete, doneCount := s5.doneCount + 1,
                      unmapCount := s5.unmapCount + 1 }
      else s4

/-- Executing a sequence of chunk-closure invocations (the order the worker
pool happens to run them in). -/
def runChunks (totalNumOfChunks chunkSize : Nat) (invs : List ChunkInvocation)
    (s : TransferState) : TransferState :=
  invs.foldl (fun st inv => generateUploadFuncStep totalNumOfChunks chunkSize inv st) s

/-! ### The prologue (current generation) -/

/-- The chunk-scheduling loop of `localToBlockBlob.prologue`:
`for startIndex := int64(0); startIndex < blobSize; startIndex += chunkSize`
with `adjustedChunkSize = blobSize - startIndex` for the final partial
chunk.  Returns the `(startIndex, adjustedChunkSize)` of each scheduled
`ChunkMsg`, in scheduling order. -/
def prologueScheduleLoop (chunkSize blobSize start : Nat) : List (Nat × Nat) :=
  if h : start < blobSize ∧ 0 < chunkSize then
    (start, if start + chunkSize > blobSize then blobSize - start else chunkSize) ::
      prologueScheduleLoop chunkSize blobSize (start + chunkSize)
  else []
termination_by blobSize - start
decreasing_by omega

/-- Observable outcome of `localToBlockBlob.prologue` for one transfer. -/
structure PrologueOutcome where
  putBlobCalls : Nat
  /-- body length of the `PutBlob` call: the whole memory-mapped file. -/
  putBlobBodyLen : Option Nat
  /-- `(startIndex, adjustedChunkSize)` of each scheduled chunk message. -/
  scheduled : List (Nat × Nat)
  finalState : TransferState

/-- `localToBlockBlob.putBlob`: single `PutBlob` with the whole mapped file,
status `TransferFailed` on error / `TransferComplete` on success,
`TransferDone` and unmap in both cases. -/
def putBlobRun (putBlobOk : Bool) (s : TransferState) : TransferState :=
  let s1 := if putBlobOk then { s with status := TransferComplete }
            else { s with status := TransferFailed }
  { s1 with doneCount := s1.doneCount + 1, unmapCount := s1.unmapCount + 1 }

/-- `localToBlockBlob.prologue` (current generation): fast path when
`blobSize <= chunkSize`, otherwise the chunk-scheduling loop. -/
def prologueRun (blobSize chunkSize : Nat) (putBlobOk : Bool)
    (s : TransferState) : PrologueOutcome :=
  if blobSize ≤ chunkSize then
    { putBlobCalls := 1
      putBlobBodyLen := some blobSize
      scheduled := []
      finalState := putBlobRun putBlobOk s }
  else
    { putBlobCalls := 0
      putBlobBodyLen := none
      scheduled := prologueScheduleLoop chunkSize blobSize 0
      finalState := s }

/-! ## `anyToRemote` chunk scheduling (newer sender architecture)

`anyToRemote` schedules chunks with
`for startIndex := int64(0); startIndex < srcSize || isDummyChunkInEmptyFile(startIndex, srcSize); startIndex += int64(chunkSize)`,
so a zero-byte file still gets exactly one (dummy, zero-length) chunk. -/

def isDummyChunkInEmptyFile (startIndex fileSize : Nat) : Bool :=
  startIndex == 0 && fileSize == 0

/-- The `(startIndex, adjustedChunkSize)` of each chunk scheduled by the
`anyToRemote` loop, in scheduling order. -/
def anyToRemoteChunkList (srcSize chunkSize start : Nat) : List (Nat × Nat) :=
  if h : (start < srcSize ∨ isDummyChunkInEmptyFile start srcSize) ∧ 0 < chunkSize then
    (start, if start + chunkSize > srcSize then srcSize - start else chunkSize) ::
      anyToRemoteChunkList srcSize chunkSize (start + chunkSize)
  else []
termination_by srcSize + 1 - start
decreasing_by
  rcases h with ⟨h1 | h1, h2⟩
  · omega
  · simp [isDummyChunkInEmptyFile] at h1
    omega

/-- Modelled from the spec: the sender's `NumChunks()` is not among the
provided sources; the specification demands one dummy chunk for a
zero-byte file ("must always schedule one chunk, even if file is empty")
and one chunk per `chunkSize`-sized block otherwise. -/
def senderNumChunks (srcSize chunkSize : Nat) : Nat :=
  if srcSize = 0 then 1 else (srcSize + chunkSize - 1) / chunkSize

/-! ## The legacy local-to-block-blob uploader (first-generation
`generateUploadFunc`)

The older `generateUploadFunc` (package `ste`, `TransferMsgDetail`
generation) has no cancellation check, does not increment the progress
counter on a `PutBlock` failure, and — after a `PutBlockList` failure in
the epilogue — writes `TransferStatusFailed` and then falls through and
unconditionally writes `TransferStatusComplete`.
`updateTransferStatus` is not among the provided sources; following the
specification ("writes the transfer status byte plus `completion_time`
when terminal") it is modelled as a plain status write, recorded here in
write order. -/

structure LegacyTransferState where
  cancelled : Bool
  /-- `(chunkId, chunkStatus)` writes via `updateChunkInfo`, in order. -/
  chunkStatusWrites : List (Nat × Nat)
  /-- transfer status codes written via `updateTransferStatus`, in order. -/
  statusWrites : List Nat
  /-- the `progressCount` atomic counter. -/
  progressCount : Nat
  putBlockCalls : Nat
  putBlockListCalls : Nat
  unmapCount : Nat
  blockIds : List (Option (List Char))
  deriving DecidableEq, Repr

def legacyInitialState (numChunks : Nat) : LegacyTransferState :=
  { cancelled := false
    chunkStatusWrites := []
    statusWrites := []
    progressCount := 0
    putBlockCalls := 0
    putBlockListCalls := 0
    unmapCount := 0
    blockIds := List.replicate numChunks none }

/-- Chunk status codes of the first-generation plan format. -/
def ChunkTransferStatusComplete : Nat := 3

def ChunkTransferStatusFailed : Nat := 4

/-- One invocation of the closure returned by the legacy
`generateUploadFunc`, as an atomic transition.  `TransferStatusFailed = 2`
and `TransferStatusComplete = 1` (legacy `common.Status` codes). -/
def legacyGenerateUploadFuncStep (totalNumOfChunks : Nat)
    (inv : ChunkInvocation) (s : LegacyTransferState) : LegacyTransferState :=
  -- step 1 and 2: generate block ID and save it into the list of block IDs
  let encodedBlockId := encodedBlockIdOf inv.uuid
  let s1 := { s with blockIds := s.blockIds.set inv.chunkId (some encodedBlockId) }
  -- step 3: perform put block
  let s2 := { s1 with putBlockCalls := s1.putBlockCalls + 1 }
  if !inv.putBlockOk then
    -- cancel entire transfer; mark chunk and transfer failed; NO counter increment
    { s2 with cancelled := true
              chunkStatusWrites := s2.chunkStatusWrites ++ [(inv.chunkId, ChunkTransferStatusFailed)]
              statusWrites := s2.statusWrites ++ [TransferFailed] }
  else
    let s3 := { s2 with
      chunkStatusWrites := s2.chunkStatusWrites ++ [(inv.chunkId, ChunkTransferStatusComplete)] }
    -- step 4: check if this is the last chunk
    let s4 := { s3 with progressCount := s3.progressCount + 1 }
    if s4.progressCount = totalNumOfChunks then
      -- step 5: EPILOGUE: PutBlockList; on error record Failed, then fall
      -- through and unconditionally record Complete (no early return)
      let s5 := { s4 with putBlockListCalls := s4.putBlockListCalls + 1 }
      let s6 := if !inv.putBlockListOk then
                  { s5 with statusWrites := s5.statusWrites ++ [TransferFailed] }
                else s5
      let s7 := { s6 with statusWrites := s6.statusWrites ++ [TransferComplete] }
      { s7 with unmapCount := s7.unmapCount + 1 }
    else s4

/-! ## Legacy transfer-status string/code conversion (`common`, first
generation) and the list handler

`TransferStatusStringToStatusCode` panics on an unknown string and
`TransferStatusCodeToString` panics on an unknown code; panics are
modelled as `none`. -/

def TransferStatusActive : Nat := 0

def TransferStatusComplete : Nat := 1

def TransferStatusFailed : Nat := 2

def TranferStatusAll : Nat := 254

def TransferStatusStringToStatusCode (status : String) : Option Nat :=
  match status with
  | "TransferStatusActive" => some 0
  | "TransferStatusComplete" => some 1
  | "TransferStatusFailed" => some 2
  | "TranferStatusAll" => some 254
  | _ => none

def TransferStatusCodeToString (status : Nat) : Option String :=
  match status with
  | 0 => some "TransferStatusActive"
  | 1 => some "TransferStatusComplete"
  | 2 => some "TransferStatusFailed"
  | 255 => some "TranferStatusAll"
  | _ => none

/-- The `ExpectedTransferStatus` code `HandleListCommand` puts in the list
order: the converted user-supplied status when `--with-status` was given,
otherwise `math.MaxUint8` (= 255). -/
def listExpectedStatus (withStatus : String) : Option Nat :=
  if withStatus ≠ "" then TransferStatusStringToStatusCode withStatus
  else some 255

/-! ## Cancel / pause / resume handlers

Each handler parses the job id (`common.ParseUUID`, not among the provided
sources; its result is taken as input) and, on success, sends one HTTP
request to the engine whose `commandType` query parameter carries the verb
shown in the source. -/

structure ControlRequest where
  commandType : String
  jobId : String
  deriving DecidableEq, Repr

/-- `HandleCancelCommand`: sends the `cancel` verb. -/
def handleCancelCommandRequest (parsedJobId : Option String) : Option ControlRequest :=
  match parsedJobId with
  | none => none
  | some j => some { commandType := "cancel", jobId := j }

/-- `HandlePauseCommand`: sends `client.Send("resume", jobId)`. -/
def handlePauseCommandRequest (parsedJobId : Option String) : Option ControlRequest :=
  match parsedJobId with
  | none => none
  | some j => some { commandType := "resume", jobId := j }

/-- `HandleResumeCommand`: sends `client.Send("resume", jobId)`. -/
def handleResumeCommandRequest (parsedJobId : Option String) : Option ControlRequest :=
  match parsedJobId with
  | none => none
  | some j => some { commandType := "resume", jobId := j }

/-- Modelled from the spec: the control-plane server is not among the
provided sources; per the verb table, `cancel` (and today `pause`) trips
the cancel tokens of all transfers of the job, `resume` re-enqueues
non-terminal transfers, `copy` creates a plan, `list` reports. -/
inductive ControlEffect where
  | tripCancelTokens
  | reenqueueNonTerminal
  | createPlan
  | report
  deriving DecidableEq, Repr

def controlVerbEffect (verb : String) : Option ControlEffect :=
  match verb with
  | "cancel" => some .tripCancelTokens
  | "pause" => some .tripCancelTokens
  | "resume" => some .reenqueueNonTerminal
  | "copy" => some .createPlan
  | "list" => some .report
  | _ => none

/-! ## Directory upload dispatch (`HandleUploadFromLocalToWastore`)

The directory branch walks the listing, buffers transfers, dispatches a
job-part order every `NumOfFilesPerUploadJobPart` (= 2) regular files,
and after the loop dispatches one last part with `IsFinalPart = true`
carrying the leftover transfers (or none). -/

def NumOfFilesPerUploadJobPart : Nat := 2

structure FileEntry where
  name : String
  isDir : Bool
  size : Nat
  deriving DecidableEq, Repr

structure DirCopyTransfer where
  source : String
  destination : String
  sourceSize : Nat
  deriving DecidableEq, Repr

/-- The transfer built for one regular file in the directory branch. -/
def transferOfFile (sourceDir containerPath : String) (f : FileEntry) : DirCopyTransfer :=
  { source := sourceDir ++ "/" ++ f.name
    destination := containerPath ++ "/" ++ f.name
    sourceSize := f.size }

structure DispatchedPart where
  partNum : Nat
  transfers : List DirCopyTransfer
  isFinalPart : Bool
  deriving DecidableEq, Repr

/-- The file loop plus the trailing final dispatch of
`HandleUploadFromLocalToWastore`'s directory branch.  `buf` is the
`Transfers` slice being accumulated, `numIn` is `numInTransfers`, and
`partNum` is `partNumber`.  Returns the dispatched job-part orders in
dispatch order. -/
def uploadDirLoop (sourceDir containerPath : String) :
    List FileEntry → List DirCopyTransfer → Nat → Nat → List DispatchedPart
  | [], buf, numIn, partNum =>
      [{ partNum := partNum
         transfers := if numIn ≠ 0 then buf else []
         isFinalPart := true }]
  | f :: files, buf, numIn, partNum =>
      if f.isDir then uploadDirLoop sourceDir containerPath files buf numIn partNum
      else
        let buf1 := buf ++ [transferOfFile sourceDir containerPath f]
        let numIn1 := numIn + 1
        if numIn1 = NumOfFilesPerUploadJobPart then
          { partNum := partNum, transfers := buf1, isFinalPart := false } ::
            uploadDirLoop sourceDir containerPath files [] 0 (partNum + 1)
        else uploadDirLoop sourceDir containerPath files buf1 numIn1 partNum

/-- Directory upload of a listing: the dispatched parts. -/
def handleUploadDirParts (sourceDir containerPath : String)
    (files : List FileEntry) : List DispatchedPart :=
  uploadDirLoop sourceDir containerPath files [] 0 0

/-! ## Lemmas about the current-generation chunk closure -/

/-- Every invocation of the chunk closure increments the chunks-done
counter exactly once, on each of its three paths (cancelled, `PutBlock`
failure, success). -/
theorem generateUploadFuncStep_chunksDone (n cs : Nat) (inv : ChunkInvocation)
    (s : TransferState) :
    (generateUploadFuncStep n cs inv s).chunksDone = s.chunksDone + 1 := by
  simp only [generateUploadFuncStep]
  repeat' split
  all_goals rfl

/-- An invocation calls `TransferDone` exactly when the incremented counter
equals the total number of chunks. -/
theorem generateUploadFuncStep_doneCount (n cs : Nat) (inv : ChunkInvocation)
    (s : TransferState) :
    (generateUploadFuncStep n cs inv s).doneCount
      = s.doneCount + (if s.chunksDone + 1 = n then 1 else 0) := by
  simp only [generateUploadFuncStep]
  repeat' split
  all_goals simp_all

theorem runChunks_nil (n cs : Nat) (s : TransferState) : runChunks n cs [] s = s := rfl

theorem runChunks_cons (n cs : Nat) (inv : ChunkInvocation) (invs : List ChunkInvocation)
    (s : TransferState) :
    runChunks n cs (inv :: invs) s = runChunks n cs invs (generateUploadFuncStep n cs inv s) := rfl

theorem runChunks_chunksDone (n cs : Nat) (invs : List ChunkInvocation) :
    ∀ s : TransferState, (runChunks n cs invs s).chunksDone = s.chunksDone + invs.length := by
  induction invs with
  | nil => intro s; rw [runChunks_nil]; simp
  | cons inv rest ih =>
      intro s
      rw [runChunks_cons, ih, generateUploadFuncStep_chunksDone]
      simp
      omega

theorem runChunks_doneCount (n cs : Nat) (invs : List ChunkInvocation) :
    ∀ s : TransferState, (runChunks n cs invs s).doneCount
      = s.doneCount + (if s.chunksDone < n ∧ n ≤ s.chunksDone + invs.length then 1 else 0) := by
  induction invs with
  | nil =>
      intro s
      rw [runChunks_nil]
      simp only [List.length_nil]
      split
      · omega
      · rfl
  | cons inv rest ih =>
      intro s
      rw [runChunks_cons, ih, generateUploadFuncStep_doneCount,
          generateUploadFuncStep_chunksDone]
      simp only [List.length_cons]
      repeat' split
      all_goals omega

/-- **C1.** For every local-to-block-blob transfer whose chunks were all
scheduled (one closure invocation per chunk, in any worker order, with any
`PutBlock`/`PutBlockList` outcomes and any cancellation state), each chunk
closure invocation increments the chunks-done counter exactly once on
every path, the counter is monotonic (after the first `k` invocations it
reads exactly `k`) and reaches exactly `num_chunks`, and `TransferDone`
(the finalization performed by the epilogue paths) runs exactly once,
performed by the single invocation that observes
`chunks_done == num_chunks`. -/
theorem C1_chunksDone_monotonic_epilogue_once (n cs : Nat)
    (invs : List ChunkInvocation) (s0 : TransferState)
    (hn : 0 < n) (hlen : invs.length = n)
    (hcd : s0.chunksDone = 0) (hdc : s0.doneCount = 0) :
    (∀ inv s, (generateUploadFuncStep n cs inv s).chunksDone = s.chunksDone + 1) ∧
    (∀ inv s, (generateUploadFuncStep n cs inv s).doneCount
        = s.doneCount + (if s.chunksDone + 1 = n then 1 else 0)) ∧
    (∀ k, k ≤ n → (runChunks n cs (invs.take k) s0).chunksDone = k) ∧
    (runChunks n cs invs s0).chunksDone = n ∧
    (runChunks n cs invs s0).doneCount = 1 := by
  refine ⟨fun inv s => generateUploadFuncStep_chunksDone n cs inv s,
          fun inv s => generateUploadFuncStep_doneCount n cs inv s,
          fun k hk => ?_, ?_, ?_⟩
  · rw [runChunks_chunksDone, hcd, List.length_take, hlen]
    omega
  · rw [runChunks_chunksDone, hcd, hlen]
    omega
  · rw [runChunks_doneCount, hcd, hdc, hlen]
    split
    · rfl
    · omega

/-- Witness for C1: a concrete two-chunk transfer in which the second
chunk's `PutBlock` fails. -/
theorem C1_witness :
    0 < 2 ∧ ([ChunkInvocation.mk 0 [] true true, ChunkInvocation.mk 1 [] false true]).length = 2 ∧
    (runChunks 2 7 [ChunkInvocation.mk 0 [] true true, ChunkInvocation.mk 1 [] false true]
      (initialTransferState 2)).chunksDone = 2 ∧
    (runChunks 2 7 [ChunkInvocation.mk 0 [] true true, ChunkInvocation.mk 1 [] false true]
      (initialTransferState 2)).doneCount = 1 :=
  ⟨by decide, by decide,
   (C1_chunksDone_monotonic_epilogue_once 2 7 _ (initialTransferState 2)
     (by decide) (by decide) rfl rfl).2.2.2.1,
   (C1_chunksDone_monotonic_epilogue_once 2 7 _ (initialTransferState 2)
     (by decide) (by decide) rfl rfl).2.2.2.2⟩

/-! ## The chunk-scheduling loop, in closed form -/

theorem prologueScheduleLoop_eq (cs bs : Nat) (hcs : 0 < cs) : ∀ start,
    prologueScheduleLoop cs bs start
      = (List.range ((bs - start + cs - 1) / cs)).map
          (fun i => (start + i * cs,
            if start + i * cs + cs > bs then bs - (start + i * cs) else cs)) := by
  intro start
  rw [prologueScheduleLoop]
  by_cases h : start < bs
  · rw [dif_pos ⟨h, hcs⟩]
    have ih := prologueScheduleLoop_eq cs bs hcs (start + cs)
    rw [ih]
    have hm : (bs - start + cs - 1) / cs = (bs - (start + cs) + cs - 1) / cs + 1 := by
      rcases le_or_lt (bs - start) cs with hle | hlt
      · have h1 : bs - (start + cs) = 0 := by omega
        rw [h1]
        have h2 : (0 + cs - 1) / cs = 0 := Nat.div_eq_of_lt (by omega)
        rw [h2]
        exact Nat.div_eq_of_lt_le (by omega) (by omega)
      · have h1 : bs - start + cs - 1 = (bs - (start + cs) + cs - 1) + cs := by omega
        rw [h1, Nat.add_div_right _ hcs]
    rw [hm, List.range_succ_eq_map, List.map_cons, List.map_map]
    have hhead : start + 0 * cs = start := by omega
    refine List.cons_eq_cons.mpr ⟨?_, ?_⟩
    · rw [hhead]
    · refine List.map_congr_left ?_
      intro i _
      have harith : start + (i + 1) * cs = start + cs + i * cs := by
        rw [Nat.succ_mul]
        omega
      simp only [Function.comp_apply, Nat.succ_eq_add_one, harith]
  · rw [dif_neg (by omega)]
    have h0 : bs - start = 0 := by omega
    rw [h0]
    have h2 : (0 + cs - 1) / cs = 0 := Nat.div_eq_of_lt (by omega)
    rw [h2]
    rfl
termination_by start => bs - start
decreasing_by omega

/-- **C2.** For every transfer with `source_size > block_size > 0`, the
local-to-block-blob prologue takes the chunked path (no `PutBlob`) and
schedules exactly `ceil(source_size / block_size)` chunk messages, in
ascending start-offset order, where chunk `i` covers offsets
`[i*block_size, min((i+1)*block_size, source_size))`; when `source_size`
is exactly divisible by `block_size` the last chunk's length equals
`block_size`, and when `source_size = block_size + 1` exactly two chunks
are scheduled, the second of length 1. -/
theorem C2_prologue_chunk_schedule (bs cs : Nat) (ok : Bool) (s : TransferState)
    (h1 : cs < bs) (h2 : 0 < cs) :
    (prologueRun bs cs ok s).putBlobCalls = 0 ∧
    (prologueRun bs cs ok s).scheduled.length = (bs + cs - 1) / cs ∧
    (∀ i, i < (prologueRun bs cs ok s).scheduled.length →
      (prologueRun bs cs ok s).scheduled.getD i (0, 0)
        = (i * cs, min ((i + 1) * cs) bs - i * cs)) ∧
    (∀ i j, i < j → j < (prologueRun bs cs ok s).scheduled.length →
      ((prologueRun bs cs ok s).scheduled.getD i (0, 0)).1
        < ((prologueRun bs cs ok s).scheduled.getD j (0, 0)).1) ∧
    (cs ∣ bs →
      (prologueRun bs cs ok s).scheduled.getD
          ((prologueRun bs cs ok s).scheduled.length - 1) (0, 0)
        = (((prologueRun bs cs ok s).scheduled.length - 1) * cs, cs)) ∧
    (bs = cs + 1 → (prologueRun bs cs ok s).scheduled = [(0, cs), (cs, 1)]) := by
  have hnot : ¬ bs ≤ cs := by omega
  have hsched : (prologueRun bs cs ok s).scheduled
      = (List.range ((bs + cs - 1) / cs)).map
          (fun i => (i * cs, if i * cs + cs > bs then bs - i * cs else cs)) := by
    simp only [prologueRun, if_neg hnot]
    rw [prologueScheduleLoop_eq cs bs h2 0]
    simp
  have hgetD : ∀ i, i < (bs + cs - 1) / cs →
      (prologueRun bs cs ok s).scheduled.getD i (0, 0)
        = (i * cs, if i * cs + cs > bs then bs - i * cs else cs) := by
    intro i hi
    rw [hsched, List.getD_eq_getElem _ _ (by simpa using hi), List.getElem_map,
        List.getElem_range]
  have hlen : (prologueRun bs cs ok s).scheduled.length = (bs + cs - 1) / cs := by
    rw [hsched]; simp
  refine ⟨by simp [prologueRun, if_neg hnot], hlen, ?_, ?_, ?_, ?_⟩
  · intro i hi
    rw [hlen] at hi
    rw [hgetD i hi, Nat.succ_mul]
    refine congrArg (Prod.mk (i * cs)) ?_
    split <;> omega
  · intro i j hij hj
    rw [hlen] at hj
    rw [hgetD i (by omega), hgetD j hj]
    exact Nat.mul_lt_mul_of_lt_of_le hij (Nat.le_refl cs) h2
  · intro hdvd
    obtain ⟨q, hq⟩ := hdvd
    have hq2 : 2 ≤ q := by
      rcases Nat.lt_or_ge q 2 with hlt | hge
      · interval_cases q <;> omega
      · exact hge
    have hm : (bs + cs - 1) / cs = q := by
      have : bs + cs - 1 = cs * q + (cs - 1) := by omega
      rw [this, Nat.mul_add_div h2, Nat.div_eq_of_lt (by omega)]
      omega
    rw [hlen, hm, hgetD (q - 1) (by omega)]
    refine congrArg (Prod.mk ((q - 1) * cs)) ?_
    have hmul : (q - 1) * cs = q * cs - cs := by
      rw [Nat.sub_mul]; omega
    have hqc : bs = q * cs := by rw [hq]; ring
    split <;> omega
  · intro hbs
    subst hbs
    rw [hsched]
    have hm : (cs + 1 + cs - 1) / cs = 2 := by
      have : cs + 1 + cs - 1 = 2 * cs := by omega
      rw [this, Nat.mul_div_cancel _ h2]
    rw [hm, (by decide : List.range 2 = [0, 1])]
    simp only [List.map_cons, List.map_nil, Nat.zero_mul, Nat.one_mul]
    have he0 : (if 0 + cs > cs + 1 then cs + 1 - 0 else cs) = cs := by
      split <;> omega
    have he1 : (if cs + cs > cs + 1 then cs + 1 - cs else cs) = 1 := by
      split <;> omega
    rw [he0, he1]

/-- Witness for C2: `source_size = 5`, `block_size = 4` (two chunks, the
second of length 1). -/
theorem C2_witness :
    4 < 5 ∧ 0 < 4 ∧
    (prologueRun 5 4 true (initialTransferState 2)).scheduled.length = (5 + 4 - 1) / 4 ∧
    (prologueRun 5 4 true (initialTransferState 2)).scheduled = [(0, 4), (4, 1)] :=
  ⟨by decide, by decide,
   (C2_prologue_chunk_schedule 5 4 true (initialTransferState 2) (by decide) (by decide)).2.1,
   (C2_prologue_chunk_schedule 5 4 true (initialTransferState 2) (by decide) (by decide)).2.2.2.2.2 rfl⟩

/-- **C3.** For every local-to-block-blob transfer with
`source_size <= block_size` (including the boundary case
`source_size = block_size`), the prologue performs exactly one `PutBlob`
carrying the whole memory-mapped file body, emits no chunk messages, and
finalizes the transfer inline: status `TransferComplete` on success,
`TransferFailed` on error, with `TransferDone` (and the unmap) performed
in both cases. -/
theorem C3_prologue_fast_path (bs cs : Nat) (ok : Bool) (s : TransferState)
    (h : bs ≤ cs) :
    (prologueRun bs cs ok s).putBlobCalls = 1 ∧
    (prologueRun bs cs ok s).putBlobBodyLen = some bs ∧
    (prologueRun bs cs ok s).scheduled = [] ∧
    (prologueRun bs cs ok s).finalState.status
      = (if ok then TransferComplete else TransferFailed) ∧
    (prologueRun bs cs ok s).finalState.doneCount = s.doneCount + 1 ∧
    (prologueRun bs cs ok s).finalState.unmapCount = s.unmapCount + 1 := by
  simp only [prologueRun, if_pos h, putBlobRun]
  cases ok <;> simp

/-- Witness for C3 at the boundary `source_size = block_size = 4`. -/
theorem C3_witness :
    4 ≤ 4 ∧
    (prologueRun 4 4 true (initialTransferState 1)).putBlobCalls = 1 ∧
    (prologueRun 4 4 true (initialTransferState 1)).scheduled = [] ∧
    (prologueRun 4 4 true (initialTransferState 1)).finalState.status
      = (if true then TransferComplete else TransferFailed) :=
  ⟨by decide,
   (C3_prologue_fast_path 4 4 true (initialTransferState 1) (by decide)).1,
   (C3_prologue_fast_path 4 4 true (initialTransferState 1) (by decide)).2.2.1,
   (C3_prologue_fast_path 4 4 true (initialTransferState 1) (by decide)).2.2.2.1⟩

/-- **C4.** The legacy `generateUploadFunc` refutes the claim that a
`TransferStatusFailed` written when the epilogue's `PutBlockList` fails is
never overwritten: for a one-chunk transfer whose `PutBlock` succeeds and
whose `PutBlockList` fails, the closure writes `TransferStatusFailed` and
then — with no early return — unconditionally writes
`TransferStatusComplete`, so the last recorded status is Complete, not
Failed.  (The current-generation `generateUploadFunc` returns immediately
after the Failed write; the legacy code path contradicts the specified
invariant that a terminal status is never changed.) -/
theorem C4_legacy_epilogue_overwrites_failed :
    (legacyGenerateUploadFuncStep 1 (ChunkInvocation.mk 0 (List.replicate 16 0) true false)
      (legacyInitialState 1)).putBlockListCalls = 1 ∧
    (legacyGenerateUploadFuncStep 1 (ChunkInvocation.mk 0 (List.replicate 16 0) true false)
      (legacyInitialState 1)).statusWrites = [TransferFailed, TransferComplete] ∧
    (legacyGenerateUploadFuncStep 1 (ChunkInvocation.mk 0 (List.replicate 16 0) true false)
      (legacyInitialState 1)).statusWrites.getLast? = some TransferComplete := by
  refine ⟨rfl, rfl, rfl⟩

/-! ## The cancelled path of the current chunk closure -/

/-- When the transfer's cancel token is already tripped, an invocation only
increments the counter and — if it is the one that observes
`chunks_done == num_chunks` — calls `TransferDone`; it performs no
`PutBlock`, writes no status, makes no `PutBlockList` call and does not
unmap. -/
theorem generateUploadFuncStep_cancelled (n cs : Nat) (inv : ChunkInvocation)
    (s : TransferState) (h : s.cancelled = true) :
    generateUploadFuncStep n cs inv s =
      { s with chunksDone := s.chunksDone + 1,
               doneCount := s.doneCount + (if s.chunksDone + 1 = n then 1 else 0) } := by
  simp only [generateUploadFuncStep, h]
  split
  · split
    · rename_i hc2
      simp [hc2]
    · rename_i hc2
      simp [hc2]
  · rename_i hc
    exact absurd trivial hc

theorem runChunks_cancelled (n cs : Nat) (invs : List ChunkInvocation) :
    ∀ s : TransferState, s.cancelled = true →
      runChunks n cs invs s =
        { s with chunksDone := s.chunksDone + invs.length,
                 doneCount := s.doneCount +
                   (if s.chunksDone < n ∧ n ≤ s.chunksDone + invs.length then 1 else 0) } := by
  induction invs with
  | nil =>
      intro s h
      rw [runChunks_nil]
      split
      · rename_i hcond
        simp only [List.length_nil] at hcond
        omega
      · simp
  | cons inv rest ih =>
      intro s h
      rw [runChunks_cons, generateUploadFuncStep_cancelled n cs inv s h]
      have h2 : ({ s with
                   chunksDone := s.chunksDone + 1,
                   doneCount := s.doneCount + (if s.chunksDone + 1 = n then 1 else 0) }
            : TransferState).cancelled = true := h
      rw [ih _ h2]
      dsimp only
      have hfields : ∀ a b a' b', a = a' → b = b' →
          ({ s with chunksDone := a, doneCount := b } : TransferState)
            = { s with chunksDone := a', doneCount := b' } := by
        intro a b a' b' ha hb
        rw [ha, hb]
      refine hfields _ _ _ _ (by simp; omega) ?_
      simp only [List.length_cons]
      repeat' split
      all_goals omega

/-- **C5 (amended).** For every transfer whose cancel token is tripped
before any chunk starts, every not-yet-started chunk closure skips its
`PutBlock` and increments `chunks_done`, and the single closure that
observes `chunks_done == num_chunks` runs the cancelled-path finalization,
which consists of marking the transfer Done in the accounting and making
no `PutBlockList` call; it does not itself write a transfer status (in
particular it does not set `TransferFailed` — on this path the Failed
status is written only by a chunk whose `PutBlock` failed) and does not
unmap the source file. -/
theorem C5_cancelled_path_accounting (n cs : Nat) (invs : List ChunkInvocation)
    (s0 : TransferState) (hn : 0 < n) (hlen : invs.length = n)
    (hcanc : s0.cancelled = true) (hcd : s0.chunksDone = 0) (hdc : s0.doneCount = 0) :
    (runChunks n cs invs s0).putBlockCalls = s0.putBlockCalls ∧
    (runChunks n cs invs s0).putBlockListCalls = s0.putBlockListCalls ∧
    (runChunks n cs invs s0).chunksDone = n ∧
    (runChunks n cs invs s0).doneCount = 1 ∧
    (runChunks n cs invs s0).status = s0.status ∧
    (runChunks n cs invs s0).unmapCount = s0.unmapCount ∧
    (runChunks n cs invs s0).blockIds = s0.blockIds := by
  rw [runChunks_cancelled n cs invs s0 hcanc]
  refine ⟨rfl, rfl, by simp [hcd, hlen], ?_, rfl, rfl, rfl⟩
  simp only [hcd, hdc, hlen]
  split
  · rfl
  · omega

/-- Witness for C5 (amended) on a concrete externally-cancelled two-chunk
transfer. -/
theorem C5_witness :
    0 < 2 ∧
    (runChunks 2 9 [ChunkInvocation.mk 0 [] false false, ChunkInvocation.mk 1 [] false false]
      { initialTransferState 2 with cancelled := true }).putBlockCalls = 0 ∧
    (runChunks 2 9 [ChunkInvocation.mk 0 [] false false, ChunkInvocation.mk 1 [] false false]
      { initialTransferState 2 with cancelled := true }).chunksDone = 2 ∧
    (runChunks 2 9 [ChunkInvocation.mk 0 [] false false, ChunkInvocation.mk 1 [] false false]
      { initialTransferState 2 with cancelled := true }).doneCount = 1 :=
  ⟨by decide,
   (C5_cancelled_path_accounting 2 9 _ _ (by decide) (by decide) rfl rfl rfl).1,
   (C5_cancelled_path_accounting 2 9 _ _ (by decide) (by decide) rfl rfl rfl).2.2.1,
   (C5_cancelled_path_accounting 2 9 _ _ (by decide) (by decide) rfl rfl rfl).2.2.2.1⟩

/-- Counterexample to **C5 as stated**: in a concrete externally-cancelled
two-chunk transfer the last observer does mark the transfer Done and makes
no `PutBlockList` call, but — contrary to the claim — the transfer status
is left at `TransferInProgress` (not set to `TransferFailed`) and the
source file is never unmapped. -/
theorem C5_counterexample :
    (runChunks 2 5 [ChunkInvocation.mk 0 [] true true, ChunkInvocation.mk 1 [] true true]
      { initialTransferState 2 with cancelled := true }).doneCount = 1 ∧
    (runChunks 2 5 [ChunkInvocation.mk 0 [] true true, ChunkInvocation.mk 1 [] true true]
      { initialTransferState 2 with cancelled := true }).putBlockListCalls = 0 ∧
    (runChunks 2 5 [ChunkInvocation.mk 0 [] true true, ChunkInvocation.mk 1 [] true true]
      { initialTransferState 2 with cancelled := true }).status = TransferInProgress ∧
    ¬ (runChunks 2 5 [ChunkInvocation.mk 0 [] true true, ChunkInvocation.mk 1 [] true true]
      { initialTransferState 2 with cancelled := true }).status = TransferFailed ∧
    (runChunks 2 5 [ChunkInvocation.mk 0 [] true true, ChunkInvocation.mk 1 [] true true]
      { initialTransferState 2 with cancelled := true }).unmapCount = 0 := by
  decide

/-! ## The fully successful chunked upload and its block-id vector -/

theorem set_map_range {α : Type} (n c : Nat) (f : Nat → α) (v : α) :
    ((List.range n).map f).set c v
      = (List.range n).map (fun i => if i = c then v else f i) := by
  apply List.ext_getElem
  · simp
  · intro i h1 h2
    simp only [List.getElem_set, List.getElem_map, List.getElem_range]
    rcases eq_or_ne c i with hci | hci
    · simp [hci]
    · simp [hci, Ne.symm hci]

theorem replicate_eq_map_range {α : Type} (n : Nat) (v : α) :
    List.replicate n v = (List.range n).map (fun _ => v) := by
  induction n with
  | zero => rfl
  | succ m ih => rw [List.range_succ, List.map_append, ← ih, List.replicate_succ']; rfl

/-- Invariant run lemma: starting from a state in which the chunks listed
in `processed` have already completed successfully (their slots filled,
counter equal to `processed.length`), running the remaining closures — one
per outstanding chunk id, in any order, all `PutBlock`s and the
`PutBlockList` succeeding — makes exactly one `PutBlockList` call, passes
it the slice whose slot `i` holds chunk `i`'s encoded block id, and
completes the transfer. -/
theorem runChunks_success_run (n cs : Nat) (uuidF : Nat → List Nat) :
    ∀ (invs : List ChunkInvocation) (processed : List Nat) (s : TransferState),
    (∀ inv ∈ invs, inv.putBlockOk = true ∧ inv.putBlockListOk = true ∧
      inv.uuid = uuidF inv.chunkId) →
    (processed ++ invs.map ChunkInvocation.chunkId).Perm (List.range n) →
    s.cancelled = false →
    s.chunksDone = processed.length →
    s.blockIds = (List.range n).map
      (fun i => if i ∈ processed then some (encodedBlockIdOf (uuidF i)) else none) →
    s.putBlockListCalls = 0 →
    invs ≠ [] →
    (runChunks n cs invs s).putBlockListCalls = 1 ∧
    (runChunks n cs invs s).putBlockListArg
      = some ((List.range n).map (fun i => some (encodedBlockIdOf (uuidF i)))) ∧
    (runChunks n cs invs s).status = TransferComplete ∧
    (runChunks n cs invs s).chunksDone = n := by
  intro invs
  induction invs with
  | nil => intro processed s _ _ _ _ _ _ hne; exact absurd rfl hne
  | cons inv rest ih =>
      intro processed s hinv hperm hcanc hcd hblk hplc _
      obtain ⟨hpb, hpbl, huuid⟩ := hinv inv (by simp)
      have hlenperm := hperm.length_eq
      simp only [List.length_append, List.length_map, List.length_cons,
        List.length_range] at hlenperm
      have hcmem : inv.chunkId ∈ List.range n := by
        refine hperm.mem_iff.mp ?_
        simp
      have hclt : inv.chunkId < n := List.mem_range.mp hcmem
      have hnodup : (processed ++ inv.chunkId :: rest.map ChunkInvocation.chunkId).Nodup := by
        refine (List.Perm.nodup_iff ?_).mpr (List.nodup_range n)
        simpa using hperm
      have hcnotp : inv.chunkId ∉ processed := by
        intro hmem
        have := List.disjoint_of_nodup_append hnodup
        exact this hmem (by simp)
      rw [runChunks_cons]
      simp only [generateUploadFuncStep, hcanc, hpb, hpbl, Bool.not_true,
        Bool.false_eq_true, if_false]
      rcases eq_or_ne rest [] with hrest | hrest
      · -- this is the last outstanding chunk: the observer runs the epilogue
        subst hrest
        have hlast : s.chunksDone + 1 = n := by
          simp only [List.length_nil] at hlenperm
          omega
        rw [if_pos hlast, runChunks_nil]
        refine ⟨by simp [hplc], ?_, rfl, by simpa using hlast⟩
        simp only [Option.some.injEq]
        rw [hblk, huuid, set_map_range]
        refine List.map_congr_left ?_
        intro i hi
        rcases eq_or_ne i inv.chunkId with hic | hic
        · simp [hic]
        · have hip : i ∈ processed := by
            have hmem2 : i ∈ processed ++ inv.chunkId :: List.map ChunkInvocation.chunkId [] :=
              hperm.symm.mem_iff.mp hi
            simp only [List.map_nil, List.mem_append, List.mem_cons, List.not_mem_nil,
              or_false] at hmem2
            rcases hmem2 with hmem2 | hmem2
            · exact hmem2
            · exact absurd hmem2 hic
          simp [hic, hip]
      · -- more chunks outstanding: no epilogue yet, recurse
        have hrestlen : 0 < rest.length := List.length_pos.mpr hrest
        have hnotlast : ¬ s.chunksDone + 1 = n := by omega
        rw [if_neg hnotlast]
        refine ih (processed ++ [inv.chunkId]) _
          (fun i hi => hinv i (by simp [hi])) ?_ rfl ?_ ?_ hplc hrest
        · refine List.Perm.trans ?_ hperm
          simp only [List.map_cons, List.append_assoc, List.singleton_append]
          exact List.Perm.refl _
        · simp only [List.length_append, List.length_singleton]
          simpa using hcd
        · dsimp only
          rw [hblk, huuid, set_map_range]
          refine List.map_congr_left ?_
          intro i hi
          rcases eq_or_ne i inv.chunkId with hic | hic
          · simp [hic]
          · have : (i ∈ processed ++ [inv.chunkId]) ↔ i ∈ processed := by
              simp [hic]
            simp [hic, this]

/-- **C6 (amended).** For every successfully completed block-blob upload
that used the chunked path (one closure invocation per chunk id in any
order, every `PutBlock` and the `PutBlockList` succeeding), exactly one
`PutBlockList` call is made and it is passed exactly `num_chunks` block
ids, ordered by ascending chunk index — each chunk closure writes only
slot `blockIds[chunkId]` — where each id is the base64 encoding of the
32-character hexadecimal *string form* of a freshly generated 16-byte
UUID (not of the 16 raw bytes themselves), and all ids are distinct
provided the generated UUIDs (after variant/version-bit masking) are
distinct. -/
theorem C6_putBlockList_blockIds (n cs : Nat) (uuidF : Nat → List Nat)
    (invs : List ChunkInvocation) (hn : 0 < n)
    (hinv : ∀ inv ∈ invs, inv.putBlockOk = true ∧ inv.putBlockListOk = true ∧
      inv.uuid = uuidF inv.chunkId)
    (hperm : (invs.map ChunkInvocation.chunkId).Perm (List.range n)) :
    (runChunks n cs invs (initialTransferState n)).putBlockListCalls = 1 ∧
    (runChunks n cs invs (initialTransferState n)).putBlockListArg
      = some ((List.range n).map (fun i => some (encodedBlockIdOf (uuidF i)))) ∧
    (runChunks n cs invs (initialTransferState n)).status = TransferComplete ∧
    (runChunks n cs invs (initialTransferState n)).chunksDone = n ∧
    ((List.range n).map (fun i => encodedBlockIdOf (uuidF i))).length = n ∧
    ((∀ i, i < n → ∀ b ∈ uuidF i, b < 256) →
     (∀ i, i < n → ∀ j, j < n → i ≠ j → newUUIDBytes (uuidF i) ≠ newUUIDBytes (uuidF j)) →
     ((List.range n).map (fun i => encodedBlockIdOf (uuidF i))).Pairwise (· ≠ ·)) := by
  have hne : invs ≠ [] := by
    intro hnil
    rw [hnil] at hperm
    have := hperm.length_eq
    simp at this
    omega
  have hmain := runChunks_success_run n cs uuidF invs [] (initialTransferState n)
    hinv (by simpa using hperm) rfl rfl
    (by
      show List.replicate n none = _
      rw [replicate_eq_map_range]
      refine List.map_congr_left ?_
      intro i _
      simp)
    rfl hne
  refine ⟨hmain.1, hmain.2.1, hmain.2.2.1, hmain.2.2.2, by simp, ?_⟩
  intro hlt hdist
  rw [List.pairwise_map, List.pairwise_iff_getElem]
  intro i j hi hj hij
  simp only [List.length_range] at hi hj
  simp only [List.getElem_range]
  exact encodedBlockIdOf_inj (uuidF i) (uuidF j)
    (newUUIDBytes_lt _ (hlt i hi)) (newUUIDBytes_lt _ (hlt j hj))
    (hdist i hi j hj (by omega))

/-- Witness for C6 (amended): a concrete two-chunk upload whose closures
run out of chunk-index order (chunk 1 first, then chunk 0). -/
theorem C6_witness :
    0 < 2 ∧
    (runChunks 2 5
      [ChunkInvocation.mk 1 (1 :: List.replicate 15 0) true true,
       ChunkInvocation.mk 0 (List.replicate 16 0) true true]
      (initialTransferState 2)).putBlockListCalls = 1 ∧
    (runChunks 2 5
      [ChunkInvocation.mk 1 (1 :: List.replicate 15 0) true true,
       ChunkInvocation.mk 0 (List.replicate 16 0) true true]
      (initialTransferState 2)).putBlockListArg
      = some ((List.range 2).map (fun i => some (encodedBlockIdOf
          (if i = 0 then List.replicate 16 0 else 1 :: List.replicate 15 0)))) ∧
    ((List.range 2).map (fun i => encodedBlockIdOf
        (if i = 0 then List.replicate 16 0 else 1 :: List.replicate 15 0))).Pairwise (· ≠ ·) :=
  ⟨by decide,
   (C6_putBlockList_blockIds 2 5
     (fun i => if i = 0 then List.replicate 16 0 else 1 :: List.replicate 15 0)
     [ChunkInvocation.mk 1 (1 :: List.replicate 15 0) true true,
      ChunkInvocation.mk 0 (List.replicate 16 0) true true]
     (by decide) (by decide) (by decide)).1,
   (C6_putBlockList_blockIds 2 5
     (fun i => if i = 0 then List.replicate 16 0 else 1 :: List.replicate 15 0)
     [ChunkInvocation.mk 1 (1 :: List.replicate 15 0) true true,
      ChunkInvocation.mk 0 (List.replicate 16 0) true true]
     (by decide) (by decide) (by decide)).2.1,
   (C6_putBlockList_blockIds 2 5
     (fun i => if i = 0 then List.replicate 16 0 else 1 :: List.replicate 15 0)
     [ChunkInvocation.mk 1 (1 :: List.replicate 15 0) true true,
      ChunkInvocation.mk 0 (List.replicate 16 0) true true]
     (by decide) (by decide) (by decide)).2.2.2.2.2 (by decide) (by decide)⟩

/-- Counterexample to **C6 as stated**: in a concrete fully successful
two-chunk upload, the first id handed to `PutBlockList` is 44 characters
long — the base64 encoding of the UUID's 32-character hexadecimal string —
whereas the base64 encoding of any 16-byte value has 24 characters, so the
id is not the base64 encoding of a 16-byte value. -/
theorem C6_counterexample :
    (runChunks 2 5
      [ChunkInvocation.mk 0 (List.replicate 16 0) true true,
       ChunkInvocation.mk 1 (1 :: List.replicate 15 0) true true]
      (initialTransferState 2)).putBlockListArg
      = some [some (encodedBlockIdOf (List.replicate 16 0)),
              some (encodedBlockIdOf (1 :: List.replicate 15 0))] ∧
    (encodedBlockIdOf (List.replicate 16 0)).length = 44 ∧
    ∀ v : List Nat, v.length = 16 →
      base64Encode v ≠ encodedBlockIdOf (List.replicate 16 0) := by
  refine ⟨by decide, by decide, ?_⟩
  intro v hv h
  have hlen := base64Encode_length v
  rw [hv, h] at hlen
  have h44 : (encodedBlockIdOf (List.replicate 16 0)).length = 44 := by decide
  rw [h44] at hlen
  omega

/-- **C7.** For a zero-byte source file (and positive chunk size), the
chunk-scheduling loop in `anyToRemote` schedules exactly one dummy chunk
of length 0 at offset 0, so the number of scheduled chunks equals the
sender's `NumChunks()` (= 1, modelled from the spec), making both the
`numChunks == 0` panic and the trailing scheduled-count-mismatch panic
unreachable; since `numChunks == 1` the dummy chunk is a whole-file chunk,
the put-blob fast path is taken for the empty body (shown on the uploader
prologue: one `PutBlob` of the whole 0-byte mapping, no chunk messages),
and the finalization still runs (`TransferDone` count increments). -/
theorem C7_zero_byte_dummy_chunk (cs : Nat) (hcs : 0 < cs) :
    anyToRemoteChunkList 0 cs 0 = [(0, 0)] ∧
    senderNumChunks 0 cs = 1 ∧
    (anyToRemoteChunkList 0 cs 0).length = senderNumChunks 0 cs ∧
    senderNumChunks 0 cs ≠ 0 ∧
    (∀ ok s, (prologueRun 0 cs ok s).putBlobCalls = 1 ∧
      (prologueRun 0 cs ok s).putBlobBodyLen = some 0 ∧
      (prologueRun 0 cs ok s).scheduled = [] ∧
      (prologueRun 0 cs ok s).finalState.doneCount = s.doneCount + 1) := by
  have hlist : anyToRemoteChunkList 0 cs 0 = [(0, 0)] := by
    rw [anyToRemoteChunkList]
    rw [dif_pos ⟨Or.inr (by simp [isDummyChunkInEmptyFile]), hcs⟩]
    rw [anyToRemoteChunkList]
    rw [dif_neg (by simp [isDummyChunkInEmptyFile])]
    simp
  have hnum : senderNumChunks 0 cs = 1 := by simp [senderNumChunks]
  refine ⟨hlist, hnum, by rw [hlist, hnum]; rfl, by rw [hnum]; omega, ?_⟩
  intro ok s
  have h0 : (0 : Nat) ≤ cs := Nat.zero_le cs
  simp only [prologueRun, if_pos h0, putBlobRun]
  cases ok <;> simp

/-- Witness for C7 at chunk size 4. -/
theorem C7_witness :
    0 < 4 ∧ anyToRemoteChunkList 0 4 0 = [(0, 0)] ∧
    senderNumChunks 0 4 = 1 ∧
    (prologueRun 0 4 true (initialTransferState 1)).putBlobCalls = 1 :=
  ⟨by decide,
   (C7_zero_byte_dummy_chunk 4 (by decide)).1,
   (C7_zero_byte_dummy_chunk 4 (by decide)).2.1,
   ((C7_zero_byte_dummy_chunk 4 (by decide)).2.2.2.2 true (initialTransferState 1)).1⟩

/-- Counterexample to **C8 as stated**: for a concrete parsed job id, the
control-plane request `HandlePauseCommand` sends carries the verb
`resume`, not `cancel` — it is the same request `HandleResumeCommand`
sends — so (per the control-plane verb semantics) it re-enqueues
non-terminal transfers instead of tripping the job's cancel tokens. -/
theorem C8_counterexample :
    handlePauseCommandRequest (some "2f9c1a70aa4e4e3d")
      = some { commandType := "resume", jobId := "2f9c1a70aa4e4e3d" } ∧
    handleCancelCommandRequest (some "2f9c1a70aa4e4e3d")
      = some { commandType := "cancel", jobId := "2f9c1a70aa4e4e3d" } ∧
    handlePauseCommandRequest (some "2f9c1a70aa4e4e3d")
      ≠ handleCancelCommandRequest (some "2f9c1a70aa4e4e3d") ∧
    (handlePauseCommandRequest (some "2f9c1a70aa4e4e3d")).map
      (fun r => controlVerbEffect r.commandType)
      = some (some ControlEffect.reenqueueNonTerminal) ∧
    ¬ (handlePauseCommandRequest (some "2f9c1a70aa4e4e3d")).map
      (fun r => controlVerbEffect r.commandType)
      = some (some ControlEffect.tripCancelTokens) := by
  refine ⟨rfl, rfl, by decide, rfl, by decide⟩

/-- **C8 (amended).** For every job id, issuing the pause command sends
exactly the same control-plane request as issuing the resume command (verb
`resume` with the parsed job id); it is not equivalent to cancel: the
request it sends does not carry the `cancel` verb, so it re-enqueues
non-terminal transfers rather than tripping the job's cancel tokens. -/
theorem C8_pause_equals_resume (parsedJobId : Option String) :
    handlePauseCommandRequest parsedJobId = handleResumeCommandRequest parsedJobId ∧
    (∀ j, parsedJobId = some j →
      handlePauseCommandRequest parsedJobId
        = some { commandType := "resume", jobId := j } ∧
      (handlePauseCommandRequest parsedJobId).map
        (fun r => controlVerbEffect r.commandType)
        = some (some ControlEffect.reenqueueNonTerminal)) := by
  refine ⟨by cases parsedJobId <;> rfl, ?_⟩
  intro j hj
  subst hj
  exact ⟨rfl, rfl⟩

/-- **C9.** Evaluation of the transfer-status string/code conversions at
the sentinel: `TransferStatusStringToStatusCode` accepts exactly the four
documented strings and maps the "any/all" sentinel string
`"TranferStatusAll"` to 254 (the `TranferStatusAll` constant), while
`TransferStatusCodeToString` recognizes only 255 for that sentinel and
panics (modelled as `none`) on 254 — so the round trip panics on the
sentinel string instead of returning it, while it does return the other
three strings; the list handler uses 255 when `--with-status` is
omitted. -/
theorem C9_status_roundtrip_sentinel_mismatch :
    TranferStatusAll = 254 ∧
    TransferStatusStringToStatusCode "TranferStatusAll" = some 254 ∧
    TransferStatusCodeToString 254 = none ∧
    TransferStatusCodeToString 255 = some "TranferStatusAll" ∧
    (TransferStatusStringToStatusCode "TranferStatusAll").bind
      TransferStatusCodeToString = none ∧
    (TransferStatusStringToStatusCode "TransferStatusActive").bind
      TransferStatusCodeToString = some "TransferStatusActive" ∧
    (TransferStatusStringToStatusCode "TransferStatusComplete").bind
      TransferStatusCodeToString = some "TransferStatusComplete" ∧
    (TransferStatusStringToStatusCode "TransferStatusFailed").bind
      TransferStatusCodeToString = some "TransferStatusFailed" ∧
    listExpectedStatus "" = some 255 := by
  refine ⟨rfl, rfl, rfl, rfl, rfl, rfl, rfl, rfl, rfl⟩

/-- Structure of the parts dispatched by the directory-upload loop: a block
of full, non-final parts with consecutive part numbers followed by one
final part carrying the (fewer than `NumOfFilesPerUploadJobPart`)
leftover transfers. -/
theorem uploadDirLoop_spec (sd cp : String) :
    ∀ (files : List FileEntry) (buf : List DirCopyTransfer) (numIn partNum : Nat),
    (∀ f ∈ files, f.isDir = false) →
    numIn = buf.length →
    numIn < NumOfFilesPerUploadJobPart →
    ∃ body lastPart,
      uploadDirLoop sd cp files buf numIn partNum = body ++ [lastPart] ∧
      body.map DispatchedPart.partNum = List.range' partNum body.length ∧
      lastPart.partNum = partNum + body.length ∧
      lastPart.isFinalPart = true ∧
      (∀ p ∈ body, p.isFinalPart = false ∧
        p.transfers.length = NumOfFilesPerUploadJobPart) ∧
      lastPart.transfers.length < NumOfFilesPerUploadJobPart ∧
      lastPart.transfers.length + NumOfFilesPerUploadJobPart * body.length
        = buf.length + files.length := by
  intro files
  induction files with
  | nil =>
      intro buf numIn partNum _ hbuf hlt
      refine ⟨[], { partNum := partNum,
                    transfers := if numIn ≠ 0 then buf else [],
                    isFinalPart := true }, rfl, rfl, by simp, rfl, by simp, ?_, ?_⟩
      · by_cases h0 : numIn ≠ 0
        · simp only [if_pos h0]
          omega
        · simp only [if_neg h0]
          simp [NumOfFilesPerUploadJobPart]
      · by_cases h0 : numIn ≠ 0
        · simp only [if_pos h0]
          simp
        · simp only [if_neg h0]
          simp
          omega
  | cons f rest ih =>
      intro buf numIn partNum hreg hbuf hlt
      have hf : f.isDir = false := hreg f (by simp)
      have hrest : ∀ g ∈ rest, g.isDir = false := fun g hg => hreg g (by simp [hg])
      rw [uploadDirLoop, if_neg (by rw [hf]; simp)]
      by_cases hfull : numIn + 1 = NumOfFilesPerUploadJobPart
      · rw [if_pos hfull]
        obtain ⟨body, lastPart, heq, hmap, hpn, hfin, hbody, hlast, hsum⟩ :=
          ih [] 0 (partNum + 1) hrest rfl (by simp [NumOfFilesPerUploadJobPart])
        refine ⟨{ partNum := partNum,
                  transfers := buf ++ [transferOfFile sd cp f],
                  isFinalPart := false } :: body, lastPart, ?_, ?_, ?_, hfin, ?_, hlast, ?_⟩
        · rw [heq]
          rfl
        · simp only [List.map_cons, hmap, List.length_cons]
          rw [List.range'_succ]
        · simp only [List.length_cons]
          omega
        · intro p hp
          rcases List.mem_cons.mp hp with hp | hp
          · subst hp
            refine ⟨rfl, ?_⟩
            simp only [List.length_append, List.length_singleton]
            omega
          · exact hbody p hp
        · simp only [List.length_cons, List.length_nil] at hsum ⊢
          simp only [NumOfFilesPerUploadJobPart] at hsum hfull ⊢
          omega
      · rw [if_neg hfull]
        obtain ⟨body, lastPart, heq, hmap, hpn, hfin, hbody, hlast, hsum⟩ :=
          ih (buf ++ [transferOfFile sd cp f]) (numIn + 1) partNum hrest
            (by simp [hbuf]) (by omega)
        refine ⟨body, lastPart, heq, hmap, hpn, hfin, hbody, hlast, ?_⟩
        have hN : NumOfFilesPerUploadJobPart = 2 := rfl
        simp only [List.length_append, List.length_singleton, List.length_cons,
          List.length_nil, hN] at hsum ⊢
        omega

/-- **C10.** For every directory upload of `n >= 1` regular files with
`NumOfFilesPerUploadJobPart = 2`, the copy handler dispatches job-part
orders with consecutive part numbers starting at 0, exactly the last
dispatched part has `IsFinalPart = true`, every non-final part contains
exactly 2 transfers, and the total number of transfers across all parts
equals `n`; in particular for `n = 5` it dispatches parts 0, 1, 2 with
part 2 final (carrying 1 transfer) and 5 transfers in total. -/
theorem C10_directory_upload_parts (sd cp : String) (files : List FileEntry)
    (n : Nat) (hreg : ∀ f ∈ files, f.isDir = false) (hlen : files.length = n)
    (hn : 0 < n) :
    ∃ body lastPart,
      handleUploadDirParts sd cp files = body ++ [lastPart] ∧
      (body ++ [lastPart]).map DispatchedPart.partNum = List.range (body.length + 1) ∧
      lastPart.isFinalPart = true ∧
      (∀ p ∈ body, p.isFinalPart = false ∧ p.transfers.length = 2) ∧
      lastPart.transfers.length < 2 ∧
      lastPart.transfers.length + 2 * body.length = n ∧
      (n = 5 → body.length = 2 ∧ lastPart.partNum = 2 ∧ lastPart.transfers.length = 1) := by
  obtain ⟨body, lastPart, heq, hmap, hpn, hfin, hbody, hlast, hsum⟩ :=
    uploadDirLoop_spec sd cp files [] 0 0 hreg rfl (by simp [NumOfFilesPerUploadJobPart])
  have hN : NumOfFilesPerUploadJobPart = 2 := rfl
  rw [hN] at hbody hlast hsum
  rw [Nat.zero_add] at hpn
  simp only [List.length_nil, Nat.zero_add, hlen] at hsum
  refine ⟨body, lastPart, heq, ?_, hfin, hbody, hlast, hsum, ?_⟩
  · rw [List.map_append, hmap, List.map_singleton, hpn]
    rw [List.range_eq_range']
    have : List.range' 0 (body.length + 1) = List.range' 0 body.length ++ [body.length] := by
      rw [List.range'_1_concat, Nat.zero_add]
    rw [this]
  · intro h5
    rw [h5] at hsum
    omega

/-- Witness for C10: five concrete regular files. -/
theorem C10_witness :
    0 < 5 ∧
    ∃ body lastPart,
      handleUploadDirParts "srcdir" "/cont"
        [FileEntry.mk "a" false 1, FileEntry.mk "b" false 2, FileEntry.mk "c" false 3,
         FileEntry.mk "d" false 4, FileEntry.mk "e" false 5] = body ++ [lastPart] ∧
      lastPart.isFinalPart = true ∧
      (∀ p ∈ body, p.isFinalPart = false ∧ p.transfers.length = 2) ∧
      lastPart.transfers.length + 2 * body.length = 5 ∧
      (body.length = 2 ∧ lastPart.partNum = 2 ∧ lastPart.transfers.length = 1) :=
  ⟨by decide, by
    obtain ⟨body, lastPart, h1, _, h3, h4, _, h6, h7⟩ :=
      C10_directory_upload_parts "srcdir" "/cont"
        [FileEntry.mk "a" false 1, FileEntry.mk "b" false 2, FileEntry.mk "c" false 3,
         FileEntry.mk "d" false 4, FileEntry.mk "e" false 5] 5
        (by decide) (by decide) (by decide)
    exact ⟨body, lastPart, h1, h3, h4, h6, h7 rfl⟩⟩
